import Mathlib

/-!
Verification of the shipment-sheet pivot tool (`src/main.py`).

The worksheet codec boundary is modelled by a closed cell-value type
(text, number, empty); xlrd delivers every number as a Python float,
modelled exactly as a rational.  The core functions `find_header_row`,
`read_sheet`, `read_excel`, `collect_all_data` and `build_pivot_table`
are translated one-to-one from the source; Python dictionaries become
functions into `Option` (with their key lists tracked), Python sets
become duplicate-free lists, and Python's `sorted` becomes
`List.insertionSort` under the same comparison order (strings compare
lexicographically by code point, as in Python).
-/

namespace VegOrder

/-- A spreadsheet cell at the codec boundary: text, a number (xlrd numbers
are Python floats, their values modelled exactly as rationals), or empty. -/
inductive Cell where
  | text (s : String)
  | num (q : ℚ)
  | empty
deriving DecidableEq, Repr

/-- A Python number: an `int` or a `float`, each carrying its exact value. -/
inductive PyNum where
  | int (n : ℤ)
  | float (q : ℚ)
deriving DecidableEq, Repr

/-- The numeric value of a Python number. -/
def PyNum.val : PyNum → ℚ
  | .int n => (n : ℚ)
  | .float q => q

/-- Python `+` on numbers: `int + int` is an `int`; any `float` operand
makes the result a `float`. -/
def PyNum.add : PyNum → PyNum → PyNum
  | .int a, .int b => .int (a + b)
  | .int a, .float b => .float ((a : ℚ) + b)
  | .float a, .int b => .float (a + (b : ℚ))
  | .float a, .float b => .float (a + b)

/-- Python `str` of a float value: a float with integral value renders as
`"n.0"`; the rendering of a non-integral float is modelled by the
rational's print form. -/
def floatRepr (q : ℚ) : String :=
  if q.den = 1 then toString q.num ++ ".0" else toString q

/-- Python `str` of a raw cell value (an empty cell reads as `""`). -/
def Cell.pyStr : Cell → String
  | .text s => s
  | .num q => floatRepr q
  | .empty => ""

/-- Python truthiness of a raw cell value: a non-empty string or a nonzero
number. -/
def Cell.truthy : Cell → Bool
  | .text s => !s.isEmpty
  | .num q => if q = 0 then false else true
  | .empty => false

/-- The whitespace stripped by Python's `str.strip()` (the ASCII cases). -/
def pySpace (c : Char) : Bool :=
  c == ' ' || c == '\t' || c == '\n' || c == '\r' || c == '\x0b' || c == '\x0c'

/-- Python `str.strip()`: drop leading and trailing whitespace. -/
def pyStrip (s : String) : String :=
  ⟨((s.data.dropWhile pySpace).reverse.dropWhile pySpace).reverse⟩

/-- Lexicographic-by-code-point `≤` on character lists, Python's string
comparison. -/
def strLeb : List Char → List Char → Bool
  | [], _ => true
  | _ :: _, [] => false
  | a :: as, b :: bs =>
    if a.val.toNat < b.val.toNat then true
    else if b.val.toNat < a.val.toNat then false
    else strLeb as bs

/-- Python's `≤` on strings: lexicographic by code point. -/
def strLe (a b : String) : Prop := strLeb a.data b.data = true

instance : DecidableRel strLe := fun a b =>
  decidable_of_iff (strLeb a.data b.data = true) Iff.rfl

/-- An xlrd worksheet: a rectangle of `nrows × ncols` cells (xlrd pads
ragged rows with empty cells, so in-range access is total). -/
structure Grid where
  nrows : ℕ
  ncols : ℕ
  cell : ℕ → ℕ → Cell

/-- Convenience constructor for concrete worksheets from a list of rows;
`ncols` is the longest row, missing cells read as empty. -/
def Grid.ofLists (rows : List (List Cell)) : Grid :=
  { nrows := rows.length
    ncols := rows.foldr (fun row acc => max row.length acc) 0
    cell := fun r c => (rows.getD r []).getD c Cell.empty }

/-- `sheet.cell_value(r, c)` as a fallible read: defined on the sheet's
rectangle, an IndexError outside it. -/
def Grid.cellValueE (g : Grid) (r c : ℕ) : Except Unit Cell :=
  if r < g.nrows ∧ c < g.ncols then Except.ok (g.cell r c) else Except.error ()

/-- One candidate header row, each cell stringified and stripped:
`[str(sheet.cell_value(r, c)).strip() for c in range(sheet.ncols)]`. -/
def headerCells (g : Grid) (r : ℕ) : List String :=
  (List.range g.ncols).map (fun c => pyStrip (g.cell r c).pyStr)

/-- The body of one iteration of `find_header_row`'s loop: `none` when row
`r` is rejected, otherwise `(serial column?, name column, quantity column)`. -/
def headerRowMatch (g : Grid) (r : ℕ) : Option (Option ℕ × ℕ × ℕ) :=
  let row := headerCells g r
  match row.findIdx? (fun s => s == "商品名称") with
  | none => none
  | some idxName =>
    match row.findIdx? (fun s => s == "应发" || s == "应发数量") with
    | none => none
    | some idxYifa => some (row.findIdx? (fun s => s == "序号"), idxName, idxYifa)

/-- The header scan loop: try rows `r, r+1, ...` while fuel remains. -/
def findHeaderFrom (g : Grid) : ℕ → ℕ → Option (ℕ × Option ℕ × ℕ × ℕ)
  | 0, _ => none
  | fuel + 1, r =>
    match headerRowMatch g r with
    | some t => some (r, t)
    | none => findHeaderFrom g fuel (r + 1)

/-- `find_header_row(sheet)`: scan the first `min(nrows, 15)` rows for the
first row holding a `商品名称` cell and an `应发`/`应发数量` cell; a `序号`
cell is optional.  Returns `(row, serial col, name col, quantity col)`,
all four `none` when no row qualifies. -/
def find_header_row (g : Grid) : Option ℕ × Option ℕ × Option ℕ × Option ℕ :=
  match findHeaderFrom g (min g.nrows 15) 0 with
  | some (r, xh, nc, qc) => (some r, xh, some nc, some qc)
  | none => (none, none, none, none)

/-- The serial string computed from a raw serial cell: an integral float
renders as the integer's decimal string; otherwise `str(raw).strip()` when
`raw` is truthy, else `""`. -/
def serialCell (raw : Cell) : String :=
  match raw with
  | .num q =>
    if q.den = 1 then toString q.num
    else if raw.truthy then pyStrip raw.pyStr else ""
  | _ => if raw.truthy then pyStrip raw.pyStr else ""

/-- The serial of data row `r`: `""` when there is no serial column,
otherwise `serialCell` of the raw cell there. -/
def serialOf (g : Grid) (r : ℕ) (col : Option ℕ) : String :=
  match col with
  | none => ""
  | some c => serialCell (g.cell r c)

/-- The quantity of data row `r`: the guarded read of the cell at column
`c`; a read fault or a non-numeric value gives `0`, a float with integral
value becomes that `int`, any other number is kept. -/
def quantityOf (g : Grid) (r c : ℕ) : PyNum :=
  match g.cellValueE r c with
  | .error _ => .int 0
  | .ok (.num q) => if q.den = 1 then .int q.num else .float q
  | .ok _ => .int 0

/-- A parsed row `(serial, name, quantity)`. -/
abbrev Row := String × String × PyNum

/-- The unit of a sheet: row 0's cells stringified, stripped and
concatenated, the result stripped, with a sentinel when empty. -/
def unitOf (g : Grid) : String :=
  let cells := (List.range g.ncols).map (fun c => pyStrip (g.cell 0 c).pyStr)
  let u := pyStrip (String.join cells)
  if u = "" then "(未填写单位)" else u

/-- One iteration of `read_sheet`'s data loop: skip blank-name rows, then
keep the row only when its quantity is strictly positive. -/
def parseRow (g : Grid) (colXuhao : Option ℕ) (colName colYifa : ℕ) (r : ℕ) :
    Option Row :=
  let name := pyStrip (g.cell r colName).pyStr
  if name = "" then none
  else
    let xuhao := serialOf g r colXuhao
    let yifaNum := quantityOf g r colYifa
    if 0 < yifaNum.val then some (xuhao, name, yifaNum) else none

/-- `read_sheet(sheet)`: `(none, [])` for an empty grid; otherwise the unit
together with the parsed rows strictly after the header row (empty when no
header is found). -/
def read_sheet (g : Grid) : Option String × List Row :=
  if g.nrows = 0 then (none, [])
  else
    match find_header_row g with
    | (some headerRow, colXuhao, some colName, some colYifa) =>
      (some (unitOf g),
       (List.range' (headerRow + 1) (g.nrows - (headerRow + 1))).filterMap
         (parseRow g colXuhao colName colYifa))
    | _ => (some (unitOf g), [])

/-- Python truthiness of a `(unit, items)` pair from `read_sheet`. -/
def sheetTruthy (p : Option String × List Row) : Bool :=
  (match p.1 with | some u => !u.isEmpty | none => false) || !p.2.isEmpty

/-- `read_excel` on an already-opened workbook, given as its sheets: keep
each sheet's `(unit, items)` when `unit or items` is truthy. -/
def read_excel (wb : List Grid) : List (Option String × List Row) :=
  (wb.map read_sheet).filter sheetTruthy

/-- `collect_all_data` over the opened files: flatten, keeping only pairs
with a non-empty item list.  A `none` unit arises only on empty grids,
which have no items (`read_sheet_unit_none` below), so dropping the `none`
pattern loses nothing. -/
def collect_all_data (files : List (List Grid)) : List (String × List Row) :=
  files.flatMap (fun wb =>
    (read_excel wb).filterMap (fun p =>
      match p with
      | (some u, items) => if items.isEmpty then none else some (u, items)
      | (none, _) => none))

/-- Add an element to a Python set modelled as a duplicate-free list in
insertion order. -/
def addElem (l : List String) (a : String) : List String :=
  if a ∈ l then l else l ++ [a]

/-- The mutable state of `build_pivot_table`'s loop: the unit set, the
serial-keyed name-set dictionary (its key list in `serialKeys`), and the
`(serial, unit) → quantity` dictionary. -/
@[ext]
structure PivotState where
  units : List String
  serialKeys : List String
  names : String → List String
  pivot : String × String → Option PyNum

/-- The initial, empty pivot state. -/
def initState : PivotState :=
  { units := [], serialKeys := [], names := fun _ => [], pivot := fun _ => none }

/-- The inner loop body: record one item row of a sheet with unit `unit` —
add the name to the serial's name set and add the quantity into the pivot
cell, initializing at `0` when absent. -/
def addRow (unit : String) (st : PivotState) (row : Row) : PivotState :=
  { units := st.units
    serialKeys := addElem st.serialKeys row.1
    names := fun s => if s = row.1 then addElem (st.names s) row.2.1 else st.names s
    pivot := fun k =>
      if k = (row.1, unit) then some (PyNum.add ((st.pivot k).getD (.int 0)) row.2.2)
      else st.pivot k }

/-- The outer loop body: record the pair's unit, then fold its items. -/
def addPair (st : PivotState) (p : String × List Row) : PivotState :=
  p.2.foldl (addRow p.1) { st with units := addElem st.units p.1 }

/-- The state after `build_pivot_table`'s loop over all of `all_data`. -/
def buildState (all_data : List (String × List Row)) : PivotState :=
  all_data.foldl addPair initState

/-- The serial sort order, Python's `key=lambda x: (x == "", x)`: non-empty
serials before the empty serial, lexicographic within each group. -/
def serialLE (a b : String) : Prop :=
  (a.isEmpty = false ∧ b.isEmpty = true) ∨ (a.isEmpty = b.isEmpty ∧ strLe a b)

instance : DecidableRel serialLE := fun a b =>
  decidable_of_iff
    ((a.isEmpty = false ∧ b.isEmpty = true) ∨ (a.isEmpty = b.isEmpty ∧ strLe a b))
    Iff.rfl

/-- The quantity contributions to pivot key `(s, u)` found in `all_data`,
in traversal order. -/
def contribsFor (all_data : List (String × List Row)) (s u : String) : List PyNum :=
  all_data.flatMap (fun p =>
    if p.1 = u then (p.2.filter (fun row => row.1 == s)).map (fun row => row.2.2)
    else [])

/-- The names contributed to serial `s` by `all_data`, in traversal order. -/
def namesFor (all_data : List (String × List Row)) (s : String) : List String :=
  all_data.flatMap (fun p =>
    (p.2.filter (fun row => row.1 == s)).map (fun row => row.2.1))

/-- All serials occurring in rows of `all_data`, in traversal order. -/
def serialsFor (all_data : List (String × List Row)) : List String :=
  all_data.flatMap (fun p => p.2.map (fun row => row.1))

/-- All units of `all_data`'s pairs, in traversal order. -/
def unitsFor (all_data : List (String × List Row)) : List String :=
  all_data.map (fun p => p.1)

/-- `pivot[key] = pivot.get(key, 0) + qty` as an operation on the optional
dictionary entry. -/
def updAdd (o : Option PyNum) (q : PyNum) : Option PyNum :=
  some (PyNum.add (o.getD (.int 0)) q)

/-- `build_pivot_table(all_data)`: returns the sorted serial list, the
serial → joined-names dictionary, the sorted unit list, and the
`(serial, unit) → summed quantity` dictionary. -/
def build_pivot_table (all_data : List (String × List Row)) :
    List String × (String → Option String) × List String ×
      (String × String → Option PyNum) :=
  let st := buildState all_data
  (st.serialKeys.insertionSort serialLE,
   fun s =>
     if s ∈ st.serialKeys then
       some (String.intercalate " / " ((st.names s).insertionSort strLe))
     else none,
   st.units.insertionSort strLe,
   st.pivot)

/-! ### The string order: reflexive, transitive, antisymmetric, total -/

theorem strLeb_refl : ∀ l : List Char, strLeb l l = true
  | [] => rfl
  | a :: as => by simp [strLeb, strLeb_refl as]

theorem strLeb_trans :
    ∀ as bs cs, strLeb as bs = true → strLeb bs cs = true → strLeb as cs = true
  | [], _, _, _, _ => rfl
  | _ :: _, [], _, h, _ => by simp [strLeb] at h
  | _ :: _, _ :: _, [], _, h => by simp [strLeb] at h
  | a :: as, b :: bs, c :: cs, h1, h2 => by
    simp only [strLeb] at h1 h2 ⊢
    rcases Nat.lt_trichotomy a.val.toNat b.val.toNat with hab | hab | hab
    · rcases Nat.lt_trichotomy b.val.toNat c.val.toNat with hbc | hbc | hbc
      · simp [show a.val.toNat < c.val.toNat by omega]
      · simp [show a.val.toNat < c.val.toNat by omega]
      · simp [Nat.lt_asymm hbc, hbc] at h2
    · have hab1 : ¬ a.val.toNat < b.val.toNat := by omega
      have hba1 : ¬ b.val.toNat < a.val.toNat := by omega
      simp [hab1, hba1] at h1
      rcases Nat.lt_trichotomy b.val.toNat c.val.toNat with hbc | hbc | hbc
      · simp [show a.val.toNat < c.val.toNat by omega]
      · have h3 : ¬ b.val.toNat < c.val.toNat := by omega
        have h4 : ¬ c.val.toNat < b.val.toNat := by omega
        simp [h3, h4] at h2
        simp [show ¬ a.val.toNat < c.val.toNat by omega,
          show ¬ c.val.toNat < a.val.toNat by omega]
        exact strLeb_trans as bs cs h1 h2
      · simp [Nat.lt_asymm hbc, hbc] at h2
    · simp [Nat.lt_asymm hab, hab] at h1

theorem strLeb_antisymm :
    ∀ as bs, strLeb as bs = true → strLeb bs as = true → as = bs
  | [], [], _, _ => rfl
  | [], _ :: _, _, h => by simp [strLeb] at h
  | _ :: _, [], h, _ => by simp [strLeb] at h
  | a :: as, b :: bs, h1, h2 => by
    simp only [strLeb] at h1 h2
    rcases Nat.lt_trichotomy a.val.toNat b.val.toNat with hab | hab | hab
    · simp [hab, Nat.lt_asymm hab] at h2
    · have hba : ¬ b.val.toNat < a.val.toNat := by omega
      have hab' : ¬ a.val.toNat < b.val.toNat := by omega
      simp [hab', hba] at h1 h2
      have : a = b := Char.ext (UInt32.toNat.inj (by omega))
      rw [this, strLeb_antisymm as bs h1 h2]
    · simp [hab, Nat.lt_asymm hab] at h1

theorem strLeb_total : ∀ as bs, strLeb as bs = true ∨ strLeb bs as = true
  | [], _ => Or.inl rfl
  | _ :: _, [] => Or.inr rfl
  | a :: as, b :: bs => by
    rcases Nat.lt_trichotomy a.val.toNat b.val.toNat with hab | hab | hab
    · exact Or.inl (by simp [strLeb, hab])
    · have h1 : ¬ a.val.toNat < b.val.toNat := by omega
      have h2 : ¬ b.val.toNat < a.val.toNat := by omega
      rcases strLeb_total as bs with h | h
      · exact Or.inl (by simp [strLeb, h1, h2, h])
      · exact Or.inr (by simp [strLeb, h1, h2, h])
    · exact Or.inr (by simp [strLeb, hab])

instance : IsTrans String strLe where
  trans a b c := strLeb_trans a.data b.data c.data

instance : IsAntisymm String strLe where
  antisymm a b h1 h2 := by
    cases a; cases b
    exact congrArg String.mk (strLeb_antisymm _ _ h1 h2)

instance : IsTotal String strLe where
  total a b := strLeb_total a.data b.data

theorem strLe_refl (a : String) : strLe a a := strLeb_refl a.data

instance : IsTrans String serialLE where
  trans a b c hab hbc := by
    rcases hab with ⟨h1, h2⟩ | ⟨h1, h2⟩ <;> rcases hbc with ⟨h3, h4⟩ | ⟨h3, h4⟩
    · exact Or.inl ⟨h1, h4⟩
    · exact Or.inl ⟨h1, h3 ▸ h2⟩
    · exact Or.inl ⟨h1 ▸ h3, h4⟩
    · exact Or.inr ⟨h1.trans h3, strLeb_trans _ _ _ h2 h4⟩

instance : IsAntisymm String serialLE where
  antisymm a b hab hba := by
    rcases hab with ⟨h1, h2⟩ | ⟨h1, h2⟩ <;> rcases hba with ⟨h3, h4⟩ | ⟨h3, h4⟩
    · rw [h2] at h3; cases h3
    · rw [h1, h2] at h3; cases h3
    · rw [h3, h4] at h1; cases h1
    · exact antisymm h2 h4

instance : IsTotal String serialLE where
  total a b := by
    cases ha : a.isEmpty <;> cases hb : b.isEmpty
    · rcases strLeb_total a.data b.data with h | h
      · exact Or.inl (Or.inr ⟨by rw [ha, hb], h⟩)
      · exact Or.inr (Or.inr ⟨by rw [ha, hb], h⟩)
    · exact Or.inl (Or.inl ⟨ha, hb⟩)
    · exact Or.inr (Or.inl ⟨hb, ha⟩)
    · rcases strLeb_total a.data b.data with h | h
      · exact Or.inl (Or.inr ⟨by rw [ha, hb], h⟩)
      · exact Or.inr (Or.inr ⟨by rw [ha, hb], h⟩)

/-! ### Elementary facts about Python numbers -/

theorem PyNum.val_add (a b : PyNum) : (a.add b).val = a.val + b.val := by
  cases a <;> cases b <;> simp [PyNum.add, PyNum.val]

theorem PyNum.add_comm (a b : PyNum) : a.add b = b.add a := by
  cases a <;> cases b <;> simp [PyNum.add] <;> ring

theorem PyNum.add_assoc (a b c : PyNum) : (a.add b).add c = a.add (b.add c) := by
  cases a <;> cases b <;> cases c <;> simp [PyNum.add] <;> push_cast <;> ring

theorem PyNum.add_right_comm (a b c : PyNum) :
    (a.add b).add c = (a.add c).add b := by
  rw [PyNum.add_assoc, PyNum.add_comm b c, ← PyNum.add_assoc]

theorem foldl_add_val (cs : List PyNum) (x : PyNum) :
    (cs.foldl PyNum.add x).val = x.val + (cs.map PyNum.val).sum := by
  induction cs generalizing x with
  | nil => simp
  | cons a l ih =>
    simp only [List.foldl_cons, ih, List.map_cons, List.sum_cons, PyNum.val_add]
    ring

/-! ### Shape of `parseRow` and `read_sheet` -/

theorem parseRow_eq_some {g : Grid} {xh : Option ℕ} {nc qc r : ℕ} {row : Row}
    (h : parseRow g xh nc qc r = some row) :
    row = (serialOf g r xh, pyStrip (g.cell r nc).pyStr, quantityOf g r qc) ∧
      pyStrip (g.cell r nc).pyStr ≠ "" ∧ 0 < (quantityOf g r qc).val := by
  simp only [parseRow] at h
  split at h
  · exact absurd h (by simp)
  · split at h
    · rename_i hname hq
      cases h
      exact ⟨rfl, hname, hq⟩
    · exact absurd h (by simp)

theorem find_header_row_shape (g : Grid) :
    (∃ r xh nc qc, find_header_row g = (some r, xh, some nc, some qc)) ∨
      find_header_row g = (none, none, none, none) := by
  unfold find_header_row
  cases h : findHeaderFrom g (min g.nrows 15) 0 with
  | none => exact Or.inr rfl
  | some t =>
    obtain ⟨r, xh, nc, qc⟩ := t
    exact Or.inl ⟨r, xh, nc, qc, rfl⟩

theorem read_sheet_of_found {g : Grid} {hr : ℕ} {xh : Option ℕ} {nc qc : ℕ}
    (h0 : g.nrows ≠ 0) (h : find_header_row g = (some hr, xh, some nc, some qc)) :
    read_sheet g = (some (unitOf g),
      (List.range' (hr + 1) (g.nrows - (hr + 1))).filterMap
        (parseRow g xh nc qc)) := by
  simp only [read_sheet, if_neg h0, h]

theorem read_sheet_of_not_found {g : Grid}
    (h0 : g.nrows ≠ 0) (h : (find_header_row g).1 = none) :
    read_sheet g = (some (unitOf g), []) := by
  rcases find_header_row_shape g with ⟨r, xh, nc, qc, hf⟩ | hf
  · rw [hf] at h; exact absurd h (by simp)
  · simp only [read_sheet, if_neg h0, hf]

theorem read_sheet_unit_none {g : Grid} (h : (read_sheet g).1 = none) :
    g.nrows = 0 ∧ (read_sheet g).2 = [] := by
  by_cases h0 : g.nrows = 0
  · exact ⟨h0, by simp [read_sheet, h0]⟩
  · exfalso
    rcases find_header_row_shape g with ⟨r, xh, nc, qc, hf⟩ | hf
    · rw [read_sheet_of_found h0 hf] at h; exact absurd h (by simp)
    · rw [read_sheet_of_not_found h0 (by rw [hf])] at h; exact absurd h (by simp)

theorem mem_read_sheet {g : Grid} {row : Row} (h : row ∈ (read_sheet g).2) :
    ∃ hr xh nc qc r, find_header_row g = (some hr, xh, some nc, some qc) ∧
      hr + 1 ≤ r ∧ r < g.nrows ∧
      row = (serialOf g r xh, pyStrip (g.cell r nc).pyStr, quantityOf g r qc) ∧
      pyStrip (g.cell r nc).pyStr ≠ "" ∧ 0 < (quantityOf g r qc).val := by
  by_cases h0 : g.nrows = 0
  · simp [read_sheet, h0] at h
  · rcases find_header_row_shape g with ⟨hr, xh, nc, qc, hf⟩ | hf
    · rw [read_sheet_of_found h0 hf] at h
      rw [List.mem_filterMap] at h
      obtain ⟨r, hrmem, hp⟩ := h
      rw [List.mem_range'_1] at hrmem
      obtain ⟨hle, hlt⟩ := hrmem
      obtain ⟨hrow, hname, hq⟩ := parseRow_eq_some hp
      exact ⟨hr, xh, nc, qc, r, hf, hle, by omega, hrow, hname, hq⟩
    · rw [read_sheet_of_not_found h0 (by rw [hf])] at h
      exact absurd h (by simp)

/-- C2: every row in the list returned by `read_sheet` has a strictly
positive quantity and a non-empty (trimmed) name; each such row comes from
a data row below the header whose stripped name cell was non-blank and
whose normalized quantity was positive. -/
theorem C2_read_sheet_invariant (g : Grid) (row : Row)
    (h : row ∈ (read_sheet g).2) :
    0 < row.2.2.val ∧ row.2.1 ≠ "" ∧
      ∃ hr xh nc qc r, find_header_row g = (some hr, xh, some nc, some qc) ∧
        hr < r ∧ r < g.nrows ∧ row.2.1 = pyStrip (g.cell r nc).pyStr ∧
        row.2.2 = quantityOf g r qc := by
  obtain ⟨hr, xh, nc, qc, r, hf, hle, hlt, hrow, hname, hq⟩ := mem_read_sheet h
  subst hrow
  exact ⟨hq, hname, hr, xh, nc, qc, r, hf, by omega, hlt, rfl, rfl⟩

/-- A concrete worksheet: a unit row, a header row, and data rows
exercising the name, serial and quantity rules. -/
def gEx : Grid := Grid.ofLists [
  [Cell.text "  单位A  ", Cell.empty],
  [Cell.text "序号", Cell.text "商品名称", Cell.text "应发数量"],
  [Cell.num 1, Cell.text " Apple ", Cell.num 5],
  [Cell.empty, Cell.text "Carrot", Cell.text "x"],
  [Cell.num 3, Cell.empty, Cell.num 9],
  [Cell.num 4, Cell.text "Pear", Cell.num 0]]

theorem C2_witness :
    (("1", "Apple", PyNum.int 5) : Row) ∈ (read_sheet gEx).2 ∧
      0 < (("1", "Apple", PyNum.int 5) : Row).2.2.val ∧
      (("1", "Apple", PyNum.int 5) : Row).2.1 ≠ "" :=
  ⟨by decide, (C2_read_sheet_invariant gEx _ (by decide)).1,
    (C2_read_sheet_invariant gEx _ (by decide)).2.1⟩

/-! ### The header scan -/

/-- Row `r` qualifies as a header row: among its stripped cells there is a
`商品名称` cell and an `应发`/`应发数量` cell. -/
def headerQualifies (g : Grid) (r : ℕ) : Bool :=
  (headerCells g r).any (fun s => s == "商品名称") &&
    (headerCells g r).any (fun s => s == "应发" || s == "应发数量")

theorem findIdx?_none_iff {α : Type} (p : α → Bool) (l : List α) :
    l.findIdx? p = none ↔ l.any p = false := by
  rw [← List.findIdx?_isSome]
  cases l.findIdx? p <;> simp

theorem any_of_findIdx?_eq_some {α : Type} {p : α → Bool} {l : List α} {i : ℕ}
    (h : l.findIdx? p = some i) : l.any p = true := by
  rw [← List.findIdx?_isSome, h]; rfl

theorem headerRowMatch_none_iff (g : Grid) (r : ℕ) :
    headerRowMatch g r = none ↔ headerQualifies g r = false := by
  simp only [headerRowMatch, headerQualifies]
  cases h1 : (headerCells g r).findIdx? (fun s => s == "商品名称") with
  | none =>
    have := (findIdx?_none_iff (fun s => s == "商品名称") (headerCells g r)).mp h1
    simp [this]
  | some i =>
    have ha1 := any_of_findIdx?_eq_some h1
    cases h2 : (headerCells g r).findIdx? (fun s => s == "应发" || s == "应发数量") with
    | none =>
      have := (findIdx?_none_iff _ (headerCells g r)).mp h2
      simp [ha1, this]
    | some j =>
      have ha2 := any_of_findIdx?_eq_some h2
      simp [ha1, ha2]

theorem headerRowMatch_eq_some {g : Grid} {r : ℕ} {xh : Option ℕ} {nc qc : ℕ}
    (h : headerRowMatch g r = some (xh, nc, qc)) :
    (headerCells g r).findIdx? (fun s => s == "商品名称") = some nc ∧
      (headerCells g r).findIdx? (fun s => s == "应发" || s == "应发数量") = some qc ∧
      (headerCells g r).findIdx? (fun s => s == "序号") = xh := by
  simp only [headerRowMatch] at h
  cases h1 : (headerCells g r).findIdx? (fun s => s == "商品名称") with
  | none => rw [h1] at h; cases h
  | some i =>
    rw [h1] at h
    cases h2 : (headerCells g r).findIdx? (fun s => s == "应发" || s == "应发数量") with
    | none => rw [h2] at h; cases h
    | some j =>
      rw [h2] at h
      simp only [Option.some.injEq, Prod.mk.injEq] at h
      obtain ⟨hx, hn, hq⟩ := h
      exact ⟨by rw [hn], by rw [hq], hx⟩

theorem findHeaderFrom_some {g : Grid} :
    ∀ {fuel r0 r : ℕ} {t : Option ℕ × ℕ × ℕ},
      findHeaderFrom g fuel r0 = some (r, t) →
      r0 ≤ r ∧ r < r0 + fuel ∧ headerRowMatch g r = some t ∧
        ∀ r', r0 ≤ r' → r' < r → headerRowMatch g r' = none := by
  intro fuel
  induction fuel with
  | zero => intro r0 r t h; simp [findHeaderFrom] at h
  | succ n ih =>
    intro r0 r t h
    simp only [findHeaderFrom] at h
    cases hm : headerRowMatch g r0 with
    | some t0 =>
      rw [hm] at h
      simp only [Option.some.injEq, Prod.mk.injEq] at h
      obtain ⟨hr, ht⟩ := h
      subst hr; subst ht
      exact ⟨le_refl _, by omega, hm, fun r' h1 h2 => absurd h2 (by omega)⟩
    | none =>
      rw [hm] at h
      obtain ⟨h1, h2, h3, h4⟩ := ih h
      refine ⟨by omega, by omega, h3, fun r' hr1 hr2 => ?_⟩
      rcases Nat.eq_or_lt_of_le hr1 with heq | hlt
      · exact heq ▸ hm
      · exact h4 r' (by omega) hr2

theorem findHeaderFrom_none {g : Grid} :
    ∀ {fuel r0 : ℕ}, findHeaderFrom g fuel r0 = none ↔
      ∀ r', r0 ≤ r' → r' < r0 + fuel → headerRowMatch g r' = none := by
  intro fuel
  induction fuel with
  | zero =>
    intro r0
    simp only [findHeaderFrom]
    exact ⟨fun _ r' h1 h2 => absurd h2 (by omega), fun _ => trivial⟩
  | succ n ih =>
    intro r0
    constructor
    · intro h r' h1 h2
      simp only [findHeaderFrom] at h
      cases hm : headerRowMatch g r0 with
      | some t0 => rw [hm] at h; cases h
      | none =>
        rw [hm] at h
        rcases Nat.eq_or_lt_of_le h1 with heq | hlt
        · exact heq ▸ hm
        · exact (ih.mp h) r' (by omega) (by omega)
    · intro h
      simp only [findHeaderFrom]
      rw [h r0 (le_refl _) (by omega)]
      exact ih.mpr (fun r' h1 h2 => h r' (by omega) (by omega))

theorem find_header_row_found {g : Grid} {r : ℕ} {xh nc qc : Option ℕ}
    (h : find_header_row g = (some r, xh, nc, qc)) :
    r < min g.nrows 15 ∧ headerQualifies g r = true ∧
      (∀ r' < r, headerQualifies g r' = false) ∧
      nc = (headerCells g r).findIdx? (fun s => s == "商品名称") ∧
      qc = (headerCells g r).findIdx? (fun s => s == "应发" || s == "应发数量") ∧
      xh = (headerCells g r).findIdx? (fun s => s == "序号") := by
  unfold find_header_row at h
  cases hf : findHeaderFrom g (min g.nrows 15) 0 with
  | none => rw [hf] at h; simp at h
  | some p =>
    obtain ⟨r1, t⟩ := p
    obtain ⟨xh1, nc1, qc1⟩ := t
    rw [hf] at h
    simp only [Prod.mk.injEq, Option.some.injEq] at h
    obtain ⟨hr1, hxh, hnc, hqc⟩ := h
    subst hr1
    obtain ⟨hb1, hb2, hm, hprev⟩ := findHeaderFrom_some hf
    obtain ⟨hn, hq, hx⟩ := headerRowMatch_eq_some hm
    refine ⟨by omega, ?_, ?_, ?_, ?_, ?_⟩
    · simp [headerQualifies, any_of_findIdx?_eq_some hn, any_of_findIdx?_eq_some hq]
    · intro r' hr'
      exact (headerRowMatch_none_iff g r').mp (hprev r' (Nat.zero_le _) hr')
    · rw [← hnc, hn]
    · rw [← hqc, hq]
    · rw [← hxh, hx]

theorem find_header_row_not_found {g : Grid}
    (h : ∀ r < min g.nrows 15, headerQualifies g r = false) :
    find_header_row g = (none, none, none, none) := by
  unfold find_header_row
  have hn : findHeaderFrom g (min g.nrows 15) 0 = none :=
    findHeaderFrom_none.mpr (fun r' h1 h2 =>
      (headerRowMatch_none_iff g r').mpr (h r' (by omega)))
  rw [hn]

theorem find_header_row_none {g : Grid} (h : (find_header_row g).1 = none) :
    find_header_row g = (none, none, none, none) ∧
      ∀ r < min g.nrows 15, headerQualifies g r = false := by
  unfold find_header_row at h ⊢
  cases hf : findHeaderFrom g (min g.nrows 15) 0 with
  | some p =>
    obtain ⟨r1, t⟩ := p
    rw [hf] at h
    simp at h
  | none =>
    refine ⟨rfl, fun r hr => ?_⟩
    exact (headerRowMatch_none_iff g r).mp
      (findHeaderFrom_none.mp hf r (Nat.zero_le _) (by omega))

/-- C3: `find_header_row` scans at most the first 15 rows top-to-bottom and
returns the first qualifying row (one with a stripped cell equal to
`商品名称` and one equal to `应发`/`应发数量`); `name_col` is the first
`商品名称` column, `quantity_col` the first matching quantity column,
`serial_col` the first `序号` column when present (its absence does not
disqualify the row); when no row among the first 15 qualifies, all four
fields are `none`. -/
theorem C3_find_header_row :
    (∀ g r xh nc qc, find_header_row g = (some r, xh, nc, qc) →
       r < min g.nrows 15 ∧ headerQualifies g r = true ∧
       (∀ r' < r, headerQualifies g r' = false) ∧
       nc = (headerCells g r).findIdx? (fun s => s == "商品名称") ∧
       qc = (headerCells g r).findIdx? (fun s => s == "应发" || s == "应发数量") ∧
       xh = (headerCells g r).findIdx? (fun s => s == "序号")) ∧
    (∀ g, (∀ r < min g.nrows 15, headerQualifies g r = false) →
       find_header_row g = (none, none, none, none)) ∧
    (∀ g, (find_header_row g).1 = none →
       find_header_row g = (none, none, none, none) ∧
       ∀ r < min g.nrows 15, headerQualifies g r = false) :=
  ⟨fun _ _ _ _ _ h => find_header_row_found h,
   fun _ h => find_header_row_not_found h,
   fun _ h => find_header_row_none h⟩

theorem C3_witness :
    find_header_row gEx = (some 1, some 0, some 1, some 2) ∧
      1 < min gEx.nrows 15 ∧ headerQualifies gEx 1 = true ∧
      headerQualifies gEx 0 = false :=
  ⟨by decide,
   (C3_find_header_row.1 gEx 1 (some 0) (some 1) (some 2) (by decide)).1,
   (C3_find_header_row.1 gEx 1 (some 0) (some 1) (some 2) (by decide)).2.1,
   (C3_find_header_row.1 gEx 1 (some 0) (some 1) (some 2) (by decide)).2.2.1 0
     (by omega)⟩

/-! ### Serial and quantity normalization -/

/-- C6: the serial of a data row — `""` without a serial column; an
integral float renders as the integer's decimal string (so text `"3"` and
float `3.0` both give `"3"`); any other truthy value is stringified and
stripped; an empty text or empty cell gives `""`. -/
theorem C6_serial_normalization :
    (∀ g (r : ℕ), serialOf g r none = "") ∧
    (∀ g (r c : ℕ) q, g.cell r c = Cell.num q → q.den = 1 →
        serialOf g r (some c) = toString q.num) ∧
    (∀ g (r c : ℕ) q, g.cell r c = Cell.num q → q.den ≠ 1 →
        serialOf g r (some c) = pyStrip (floatRepr q)) ∧
    (∀ g (r c : ℕ) s, g.cell r c = Cell.text s → s ≠ "" →
        serialOf g r (some c) = pyStrip s) ∧
    (∀ g (r c : ℕ), g.cell r c = Cell.text "" ∨ g.cell r c = Cell.empty →
        serialOf g r (some c) = "") ∧
    serialCell (Cell.num 3) = "3" ∧ serialCell (Cell.text "3") = "3" := by
  refine ⟨fun g r => rfl, ?_, ?_, ?_, ?_, by decide, by decide⟩
  · intro g r c q hc hd
    simp [serialOf, hc, serialCell, hd]
  · intro g r c q hc hd
    have hq : q ≠ 0 := fun h => hd (by rw [h]; rfl)
    simp [serialOf, hc, serialCell, hd, Cell.truthy, Cell.pyStr, hq]
  · intro g r c s hc hs
    have hse : s.isEmpty = false := by
      cases hi : s.isEmpty
      · rfl
      · exact absurd ((String.isEmpty_iff s).mp hi) hs
    simp [serialOf, hc, serialCell, Cell.truthy, Cell.pyStr, hse]
  · intro g r c h
    rcases h with hc | hc <;> simp only [serialOf, hc] <;> decide

theorem C6_witness :
    gEx.cell 2 0 = Cell.num 1 ∧ (1 : ℚ).den = 1 ∧
      serialOf gEx 2 (some 0) = toString (1 : ℚ).num ∧
      gEx.cell 3 0 = Cell.empty ∧ serialOf gEx 3 (some 0) = "" :=
  ⟨rfl, rfl, C6_serial_normalization.2.1 gEx 2 0 1 rfl rfl,
   rfl, C6_serial_normalization.2.2.2.2.1 gEx 3 0 (Or.inr rfl)⟩

/-- C7: the quantity of a data row comes from the guarded read of the cell
at `quantity_col`: a numeric value is kept (a float with integral value
becoming that integer, the value always preserved), a non-numeric value
gives `0`, and a read fault (out-of-range access) is absorbed as `0`
instead of propagating. -/
theorem C7_quantity_fault_absorption :
    (∀ g (r c : ℕ) q, g.cellValueE r c = Except.ok (Cell.num q) →
        quantityOf g r c = (if q.den = 1 then PyNum.int q.num else PyNum.float q) ∧
        (quantityOf g r c).val = q) ∧
    (∀ g (r c : ℕ) s, g.cellValueE r c = Except.ok (Cell.text s) →
        quantityOf g r c = PyNum.int 0) ∧
    (∀ g (r c : ℕ), g.cellValueE r c = Except.ok Cell.empty →
        quantityOf g r c = PyNum.int 0) ∧
    (∀ g (r c : ℕ), ¬(r < g.nrows ∧ c < g.ncols) →
        quantityOf g r c = PyNum.int 0) := by
  refine ⟨?_, ?_, ?_, ?_⟩
  · intro g r c q h
    refine ⟨by simp [quantityOf, h], ?_⟩
    by_cases hd : q.den = 1
    · simp only [quantityOf, h, hd, if_pos, PyNum.val]
      exact (Rat.den_eq_one_iff q).mp hd
    · simp [quantityOf, h, hd, PyNum.val]
  · intro g r c s h; simp [quantityOf, h]
  · intro g r c h; simp [quantityOf, h]
  · intro g r c h
    simp [quantityOf, Grid.cellValueE, if_neg h]

theorem C7_witness :
    gEx.cellValueE 2 2 = Except.ok (Cell.num 5) ∧
      quantityOf gEx 2 2 = PyNum.int 5 ∧
      ¬((9 : ℕ) < gEx.nrows ∧ (0 : ℕ) < gEx.ncols) ∧
      quantityOf gEx 9 0 = PyNum.int 0 :=
  ⟨rfl,
   by simpa using (C7_quantity_fault_absorption.1 gEx 2 2 5 rfl).1,
   by decide,
   C7_quantity_fault_absorption.2.2.2 gEx 9 0 (by decide)⟩

/-! ### The unit of a sheet -/

theorem foldl_append_shift (l : List String) :
    ∀ a : String, l.foldl (· ++ ·) a = a ++ l.foldl (· ++ ·) "" := by
  induction l with
  | nil => intro a; simp [String.append_empty]
  | cons x l ih =>
    intro a
    simp only [List.foldl_cons]
    rw [ih (a ++ x), ih ("" ++ x), String.empty_append, String.append_assoc]

theorem join_cons (a : String) (l : List String) :
    String.join (a :: l) = a ++ String.join l := by
  simp only [String.join, List.foldl_cons]
  rw [foldl_append_shift l ("" ++ a), String.empty_append]

theorem join_filter_out_empty (l : List String) :
    String.join (l.filter (fun s => !s.isEmpty)) = String.join l := by
  induction l with
  | nil => rfl
  | cons a l ih =>
    cases ha : a.isEmpty
    · simp only [List.filter_cons, ha, Bool.not_false, if_pos, join_cons, ih]
    · have ha' : a = "" := (String.isEmpty_iff a).mp ha
      subst ha'
      simp only [List.filter_cons]
      rw [if_neg (by decide), join_cons, String.empty_append]
      exact ih

/-- C8: on a grid with rows but no qualifying header, `read_sheet` returns
the unit with an empty row list; the unit is the concatenation of the
stringified, stripped cells of row 0 (empty strings contributing nothing),
stripped, with the sentinel `(未填写单位)` when that is empty — hence never
the empty string.  A grid with zero rows returns `(none, [])` instead. -/
theorem C8_no_header_unit :
    (∀ g : Grid, g.nrows = 0 → read_sheet g = (none, [])) ∧
    (∀ g : Grid, g.nrows ≠ 0 → (find_header_row g).1 = none →
       read_sheet g = (some (unitOf g), []) ∧
       unitOf g =
         (if pyStrip (String.join ((((List.range g.ncols).map
              (fun c => pyStrip (g.cell 0 c).pyStr))).filter
                (fun s => !s.isEmpty))) = "" then "(未填写单位)"
          else pyStrip (String.join (((List.range g.ncols).map
              (fun c => pyStrip (g.cell 0 c).pyStr)).filter
                (fun s => !s.isEmpty)))) ∧
       unitOf g ≠ "") := by
  constructor
  · intro g h0; simp [read_sheet, h0]
  · intro g h0 hf
    refine ⟨read_sheet_of_not_found h0 hf, ?_, ?_⟩
    · rw [join_filter_out_empty]
      rfl
    · simp only [unitOf]
      split
      · decide
      · assumption

/-- A concrete worksheet with a unit row but no qualifying header row. -/
def gEx2 : Grid := Grid.ofLists [
  [Cell.text " Store B ", Cell.empty],
  [Cell.text "x", Cell.num 7]]

theorem C8_witness :
    (Grid.ofLists []).nrows = 0 ∧ read_sheet (Grid.ofLists []) = (none, []) ∧
      gEx2.nrows ≠ 0 ∧ (find_header_row gEx2).1 = none ∧
      read_sheet gEx2 = (some (unitOf gEx2), []) ∧ unitOf gEx2 ≠ "" :=
  ⟨rfl, C8_no_header_unit.1 (Grid.ofLists []) rfl,
   by decide, by decide,
   (C8_no_header_unit.2 gEx2 (by decide) (by decide)).1,
   (C8_no_header_unit.2 gEx2 (by decide) (by decide)).2.2⟩

/-! ### Characterizing the aggregation fold -/

theorem mem_addElem {l : List String} {a b : String} :
    b ∈ addElem l a ↔ b ∈ l ∨ b = a := by
  unfold addElem
  split
  · rename_i h
    constructor
    · exact Or.inl
    · rintro (hb | rfl)
      · exact hb
      · exact h
  · simp [List.mem_append]

theorem nodup_addElem {l : List String} (h : l.Nodup) (a : String) :
    (addElem l a).Nodup := by
  unfold addElem
  split
  · exact h
  · rename_i ha
    simp [List.nodup_append, h, ha]

theorem foldl_addRow_units (u : String) (items : List Row) (st : PivotState) :
    (items.foldl (addRow u) st).units = st.units := by
  induction items generalizing st with
  | nil => rfl
  | cons x l ih => rw [List.foldl_cons, ih]; rfl

theorem foldl_addRow_serialKeys_mem (u : String) (items : List Row)
    (st : PivotState) (a : String) :
    a ∈ (items.foldl (addRow u) st).serialKeys ↔
      a ∈ st.serialKeys ∨ a ∈ items.map (fun row => row.1) := by
  induction items generalizing st with
  | nil => simp
  | cons x l ih =>
    rw [List.foldl_cons, ih]
    show (a ∈ addElem st.serialKeys x.1 ∨ _) ↔ _
    rw [mem_addElem]
    simp only [List.map_cons, List.mem_cons]
    tauto

theorem foldl_addRow_serialKeys_nodup (u : String) (items : List Row)
    (st : PivotState) (h : st.serialKeys.Nodup) :
    (items.foldl (addRow u) st).serialKeys.Nodup := by
  induction items generalizing st with
  | nil => exact h
  | cons x l ih => rw [List.foldl_cons]; exact ih _ (nodup_addElem h _)

theorem foldl_addRow_names_mem (u : String) (items : List Row)
    (st : PivotState) (s a : String) :
    a ∈ (items.foldl (addRow u) st).names s ↔
      a ∈ st.names s ∨
        a ∈ (items.filter (fun row => row.1 == s)).map (fun row => row.2.1) := by
  induction items generalizing st with
  | nil => simp
  | cons x l ih =>
    rw [List.foldl_cons, ih]
    by_cases hx : x.1 = s
    · show (a ∈ (if s = x.1 then addElem (st.names s) x.2.1 else st.names s) ∨ _) ↔ _
      rw [if_pos hx.symm, mem_addElem]
      rw [List.filter_cons, if_pos (by simp [hx])]
      simp only [List.map_cons, List.mem_cons]
      tauto
    · show (a ∈ (if s = x.1 then addElem (st.names s) x.2.1 else st.names s) ∨ _) ↔ _
      rw [if_neg (fun hs => hx hs.symm)]
      rw [List.filter_cons, if_neg (by simp [hx])]

theorem foldl_addRow_names_nodup (u : String) (items : List Row)
    (st : PivotState) (s : String) (h : (st.names s).Nodup) :
    ((items.foldl (addRow u) st).names s).Nodup := by
  induction items generalizing st with
  | nil => exact h
  | cons x l ih =>
    rw [List.foldl_cons]
    refine ih _ ?_
    show (if s = x.1 then addElem (st.names s) x.2.1 else st.names s).Nodup
    split
    · exact nodup_addElem h _
    · exact h

theorem foldl_addRow_pivot (u : String) (items : List Row) (st : PivotState)
    (k : String × String) :
    (items.foldl (addRow u) st).pivot k =
      (if k.2 = u then
        (items.filter (fun row => row.1 == k.1)).map (fun row => row.2.2)
       else []).foldl updAdd (st.pivot k) := by
  induction items generalizing st with
  | nil => simp
  | cons x l ih =>
    rw [List.foldl_cons, ih]
    by_cases hu : k.2 = u
    · rw [if_pos hu, if_pos hu]
      by_cases hx : x.1 = k.1
      · have hk : k = (x.1, u) := by
          obtain ⟨k1, k2⟩ := k
          simp only at hu hx
          simp [hx, hu]
        rw [List.filter_cons, if_pos (by simp [hx]), List.map_cons, List.foldl_cons]
        congr 1
        show (if k = (x.1, u) then
            some (PyNum.add ((st.pivot k).getD (.int 0)) x.2.2)
          else st.pivot k) = updAdd (st.pivot k) x.2.2
        rw [if_pos hk]
        rfl
      · rw [List.filter_cons, if_neg (by simp [hx])]
        congr 1
        show (if k = (x.1, u) then
            some (PyNum.add ((st.pivot k).getD (.int 0)) x.2.2)
          else st.pivot k) = st.pivot k
        exact if_neg (fun hk => hx (by rw [hk]))
    · rw [if_neg hu, if_neg hu]
      simp only [List.foldl_nil]
      show (if k = (x.1, u) then
          some (PyNum.add ((st.pivot k).getD (.int 0)) x.2.2)
        else st.pivot k) = st.pivot k
      exact if_neg (fun hk => hu (by rw [hk]))

theorem addPair_units (st : PivotState) (p : String × List Row) :
    (addPair st p).units = addElem st.units p.1 := by
  unfold addPair
  rw [foldl_addRow_units]

theorem addPair_serialKeys_mem (st : PivotState) (p : String × List Row)
    (a : String) :
    a ∈ (addPair st p).serialKeys ↔
      a ∈ st.serialKeys ∨ a ∈ p.2.map (fun row => row.1) := by
  unfold addPair
  rw [foldl_addRow_serialKeys_mem]

theorem addPair_names_mem (st : PivotState) (p : String × List Row)
    (s a : String) :
    a ∈ (addPair st p).names s ↔
      a ∈ st.names s ∨
        a ∈ (p.2.filter (fun row => row.1 == s)).map (fun row => row.2.1) := by
  unfold addPair
  rw [foldl_addRow_names_mem]

theorem addPair_pivot (st : PivotState) (p : String × List Row)
    (k : String × String) :
    (addPair st p).pivot k =
      (if p.1 = k.2 then
        (p.2.filter (fun row => row.1 == k.1)).map (fun row => row.2.2)
       else []).foldl updAdd (st.pivot k) := by
  unfold addPair
  rw [foldl_addRow_pivot]
  by_cases h : k.2 = p.1
  · rw [if_pos h, if_pos h.symm]
  · rw [if_neg h, if_neg (fun hh => h hh.symm)]

theorem foldl_addPair_units_mem (l : List (String × List Row))
    (st : PivotState) (a : String) :
    a ∈ (l.foldl addPair st).units ↔ a ∈ st.units ∨ a ∈ unitsFor l := by
  induction l generalizing st with
  | nil => simp [unitsFor]
  | cons p l ih =>
    rw [List.foldl_cons, ih, addPair_units, mem_addElem]
    simp only [unitsFor, List.map_cons, List.mem_cons]
    tauto

theorem foldl_addPair_serialKeys_mem (l : List (String × List Row))
    (st : PivotState) (a : String) :
    a ∈ (l.foldl addPair st).serialKeys ↔
      a ∈ st.serialKeys ∨ a ∈ serialsFor l := by
  induction l generalizing st with
  | nil => simp [serialsFor]
  | cons p l ih =>
    rw [List.foldl_cons, ih, addPair_serialKeys_mem]
    simp only [serialsFor, List.flatMap_cons, List.mem_append]
    tauto

theorem foldl_addPair_names_mem (l : List (String × List Row))
    (st : PivotState) (s a : String) :
    a ∈ (l.foldl addPair st).names s ↔
      a ∈ st.names s ∨ a ∈ namesFor l s := by
  induction l generalizing st with
  | nil => simp [namesFor]
  | cons p l ih =>
    rw [List.foldl_cons, ih, addPair_names_mem]
    simp only [namesFor, List.flatMap_cons, List.mem_append]
    tauto

theorem foldl_addPair_pivot (l : List (String × List Row))
    (st : PivotState) (k : String × String) :
    (l.foldl addPair st).pivot k =
      (contribsFor l k.1 k.2).foldl updAdd (st.pivot k) := by
  induction l generalizing st with
  | nil => simp [contribsFor]
  | cons p l ih =>
    rw [List.foldl_cons, ih]
    simp only [contribsFor, List.flatMap_cons, List.foldl_append]
    congr 1
    exact addPair_pivot st p k

theorem foldl_addPair_units_nodup (l : List (String × List Row))
    (st : PivotState) (h : st.units.Nodup) :
    (l.foldl addPair st).units.Nodup := by
  induction l generalizing st with
  | nil => exact h
  | cons p l ih =>
    rw [List.foldl_cons]
    refine ih _ ?_
    rw [addPair_units]
    exact nodup_addElem h _

theorem foldl_addPair_serialKeys_nodup (l : List (String × List Row))
    (st : PivotState) (h : st.serialKeys.Nodup) :
    (l.foldl addPair st).serialKeys.Nodup := by
  induction l generalizing st with
  | nil => exact h
  | cons p l ih =>
    rw [List.foldl_cons]
    exact ih _ (foldl_addRow_serialKeys_nodup _ _ _ h)

theorem foldl_addPair_names_nodup (l : List (String × List Row))
    (st : PivotState) (s : String) (h : (st.names s).Nodup) :
    ((l.foldl addPair st).names s).Nodup := by
  induction l generalizing st with
  | nil => exact h
  | cons p l ih =>
    rw [List.foldl_cons]
    exact ih _ (foldl_addRow_names_nodup _ _ _ _ h)

theorem buildState_units_mem (l : List (String × List Row)) (a : String) :
    a ∈ (buildState l).units ↔ a ∈ unitsFor l := by
  unfold buildState
  rw [foldl_addPair_units_mem]
  simp [initState]

theorem buildState_serialKeys_mem (l : List (String × List Row)) (a : String) :
    a ∈ (buildState l).serialKeys ↔ a ∈ serialsFor l := by
  unfold buildState
  rw [foldl_addPair_serialKeys_mem]
  simp [initState]

theorem buildState_names_mem (l : List (String × List Row)) (s a : String) :
    a ∈ (buildState l).names s ↔ a ∈ namesFor l s := by
  unfold buildState
  rw [foldl_addPair_names_mem]
  simp [initState]

theorem buildState_pivot (l : List (String × List Row)) (k : String × String) :
    (buildState l).pivot k = (contribsFor l k.1 k.2).foldl updAdd none := by
  unfold buildState
  rw [foldl_addPair_pivot]
  rfl

theorem buildState_units_nodup (l : List (String × List Row)) :
    (buildState l).units.Nodup :=
  foldl_addPair_units_nodup l initState List.nodup_nil

theorem buildState_serialKeys_nodup (l : List (String × List Row)) :
    (buildState l).serialKeys.Nodup :=
  foldl_addPair_serialKeys_nodup l initState List.nodup_nil

theorem buildState_names_nodup (l : List (String × List Row)) (s : String) :
    ((buildState l).names s).Nodup :=
  foldl_addPair_names_nodup l initState s List.nodup_nil

theorem foldl_updAdd_some (cs : List PyNum) (x : PyNum) :
    cs.foldl updAdd (some x) = some (cs.foldl PyNum.add x) := by
  induction cs generalizing x with
  | nil => rfl
  | cons q l ih => simp [List.foldl_cons, updAdd, ih]

theorem foldl_updAdd_none (cs : List PyNum) :
    cs.foldl updAdd none =
      if cs = [] then none else some (cs.foldl PyNum.add (PyNum.int 0)) := by
  cases cs with
  | nil => rfl
  | cons q l =>
    rw [if_neg (by simp), List.foldl_cons, List.foldl_cons]
    exact foldl_updAdd_some l _

instance : RightCommutative updAdd :=
  ⟨fun o q1 q2 => by
    simp only [updAdd, Option.getD_some]
    exact congrArg some (PyNum.add_right_comm _ _ _)⟩

/-- Sorting with a total, transitive, antisymmetric order maps permutable
lists to the same sorted list. -/
theorem sorted_eq_of_perm {l₁ l₂ : List String} (r : String → String → Prop)
    [DecidableRel r] [IsTotal String r] [IsTrans String r] [IsAntisymm String r]
    (h : l₁.Perm l₂) : l₁.insertionSort r = l₂.insertionSort r :=
  List.eq_of_perm_of_sorted
    ((List.perm_insertionSort r l₁).trans (h.trans (List.perm_insertionSort r l₂).symm))
    (List.sorted_insertionSort r l₁) (List.sorted_insertionSort r l₂)

/-! ### The claims on `build_pivot_table` -/

/-- C1: for every serial `s` and unit `u`, the pivot entry at `(s, u)` is
present exactly when some parsed row of a sheet with unit `u` and serial
`s` contributed, and then holds the accumulated Python sum of all those
quantities (initialized at 0 and added to, never overwritten); in
particular contributions of 5 and 7 to the same key from two pairs sum
to 12. -/
theorem C1_pivot_accumulation :
    (∀ all_data s u,
      (build_pivot_table all_data).2.2.2 (s, u) =
        (if contribsFor all_data s u = [] then none
         else some ((contribsFor all_data s u).foldl PyNum.add (PyNum.int 0))) ∧
      ((build_pivot_table all_data).2.2.2 (s, u)).map PyNum.val =
        (if contribsFor all_data s u = [] then none
         else some (((contribsFor all_data s u).map PyNum.val).sum))) ∧
    (build_pivot_table [("Store1", [("3", "A", PyNum.int 5)]),
        ("Store1", [("3", "B", PyNum.int 7)])]).2.2.2 ("3", "Store1") =
      some (PyNum.int 12) := by
  refine ⟨fun all_data s u => ?_, by decide⟩
  have hp : (build_pivot_table all_data).2.2.2 (s, u) =
      (contribsFor all_data s u).foldl updAdd none :=
    buildState_pivot all_data (s, u)
  constructor
  · rw [hp, foldl_updAdd_none]
  · rw [hp, foldl_updAdd_none]
    split
    · rfl
    · simp only [Option.map_some']
      rw [foldl_add_val]
      simp [PyNum.val]

/-- C4: the serial list contains exactly the distinct serials of the input
rows, each once, sorted by the key `(x == "", x)`: a pair in list order
never has an empty serial strictly before a non-empty one, and neighbours
of equal emptiness are in ascending code-point order; serials
["", "10", "2"] come out as ["10", "2", ""]. -/
theorem C4_serial_order :
    (∀ all_data,
       (build_pivot_table all_data).1.Nodup ∧
       (∀ s, s ∈ (build_pivot_table all_data).1 ↔ s ∈ serialsFor all_data) ∧
       (build_pivot_table all_data).1.Pairwise (fun a b =>
         (a = "" → b = "") ∧ a ≠ b ∧ (a.isEmpty = b.isEmpty → strLe a b))) ∧
    (build_pivot_table [("U", [("", "A", PyNum.int 1), ("10", "B", PyNum.int 2),
        ("2", "C", PyNum.int 3)])]).1 = ["10", "2", ""] := by
  refine ⟨fun all_data => ?_, by decide⟩
  have hperm : (build_pivot_table all_data).1.Perm
      ((buildState all_data).serialKeys) :=
    List.perm_insertionSort serialLE _
  have hnodup : (build_pivot_table all_data).1.Nodup :=
    hperm.nodup_iff.mpr (buildState_serialKeys_nodup all_data)
  have hsorted : (build_pivot_table all_data).1.Pairwise serialLE :=
    List.sorted_insertionSort serialLE _
  refine ⟨hnodup, ?_, ?_⟩
  · intro s
    rw [hperm.mem_iff, buildState_serialKeys_mem]
  · refine (hsorted.and hnodup).imp ?_
    rintro a b ⟨hle, hne⟩
    refine ⟨?_, hne, ?_⟩
    · intro ha
      rcases hle with ⟨h1, h2⟩ | ⟨h1, h2⟩
      · rw [ha] at h1; cases h1
      · have hb : b.isEmpty = true := by rw [← h1, ha]; rfl
        exact (String.isEmpty_iff b).mp hb
    · intro he
      rcases hle with ⟨h1, h2⟩ | ⟨h1, h2⟩
      · rw [he] at h1; rw [h1] at h2; cases h2
      · exact h2

theorem ne_nil_iff_exists_mem {α : Type} {l : List α} : l ≠ [] ↔ ∃ a, a ∈ l := by
  cases l <;> simp

theorem serialKeys_iff_namesFor (l : List (String × List Row)) (s : String) :
    s ∈ (buildState l).serialKeys ↔ namesFor l s ≠ [] := by
  rw [buildState_serialKeys_mem, ne_nil_iff_exists_mem]
  constructor
  · intro hs
    simp only [serialsFor, List.mem_flatMap, List.mem_map] at hs
    obtain ⟨p, hp, row, hrow, hrs⟩ := hs
    refine ⟨row.2.1, ?_⟩
    simp only [namesFor, List.mem_flatMap, List.mem_map]
    exact ⟨p, hp, row, List.mem_filter.mpr ⟨hrow, by simp [hrs]⟩, rfl⟩
  · rintro ⟨a, ha⟩
    simp only [namesFor, List.mem_flatMap, List.mem_map] at ha
    obtain ⟨p, hp, row, hrow, hra⟩ := ha
    have hf := List.mem_filter.mp hrow
    simp only [serialsFor, List.mem_flatMap, List.mem_map]
    exact ⟨p, hp, row, hf.1, by simpa using hf.2⟩

/-- Two one-sheet files whose data rows share serial 5 but record the name
with different capitalization and trailing whitespace. -/
def gA : Grid := Grid.ofLists [
  [Cell.text "StoreA"],
  [Cell.text "序号", Cell.text "商品名称", Cell.text "应发"],
  [Cell.num 5, Cell.text "Apple", Cell.num 2]]

/-- The second file of the name-merge example. -/
def gB : Grid := Grid.ofLists [
  [Cell.text "StoreB"],
  [Cell.text "序号", Cell.text "商品名称", Cell.text "应发"],
  [Cell.num 5, Cell.text "apple ", Cell.num 3]]

/-- C5: `serial_name_map[s]` is present exactly when serial `s` occurred,
and then equals the distinct names recorded for `s`, sorted
lexicographically and joined with " / "; names are stripped at parse time,
so "Apple" and "apple " merge end-to-end to "Apple / apple". -/
theorem C5_name_merge :
    (∀ all_data s,
      (build_pivot_table all_data).2.1 s =
        (if namesFor all_data s = [] then none
         else some (String.intercalate " / "
           (((namesFor all_data s).dedup).insertionSort strLe)))) ∧
    (build_pivot_table (collect_all_data [[gA], [gB]])).2.1 "5" =
      some "Apple / apple" := by
  refine ⟨fun all_data s => ?_, by decide⟩
  show (if s ∈ (buildState all_data).serialKeys then
      some (String.intercalate " / "
        (((buildState all_data).names s).insertionSort strLe))
    else none) = _
  by_cases hs : s ∈ (buildState all_data).serialKeys
  · rw [if_pos hs, if_neg ((serialKeys_iff_namesFor all_data s).mp hs)]
    have hperm : ((buildState all_data).names s).Perm
        ((namesFor all_data s).dedup) :=
      (List.perm_ext_iff_of_nodup (buildState_names_nodup all_data s)
        (List.nodup_dedup _)).mpr
        (fun a => by rw [buildState_names_mem, List.mem_dedup])
    rw [sorted_eq_of_perm strLe hperm]
  · have hnil : namesFor all_data s = [] := by
      by_contra hne
      exact hs ((serialKeys_iff_namesFor all_data s).mpr hne)
    rw [if_neg hs, if_pos hnil]

/-- C9: `build_pivot_table` is order-independent — permuting the input
list of (unit, rows) pairs leaves the serial list, the name map, the unit
list and the pivot map all unchanged. -/
theorem C9_order_independence (l₁ l₂ : List (String × List Row))
    (h : l₁.Perm l₂) : build_pivot_table l₁ = build_pivot_table l₂ := by
  have hkeys : ((buildState l₁).serialKeys).Perm ((buildState l₂).serialKeys) :=
    (List.perm_ext_iff_of_nodup (buildState_serialKeys_nodup l₁)
      (buildState_serialKeys_nodup l₂)).mpr (fun a => by
        rw [buildState_serialKeys_mem, buildState_serialKeys_mem]
        exact (h.flatMap_right _).mem_iff)
  have hunits : ((buildState l₁).units).Perm ((buildState l₂).units) :=
    (List.perm_ext_iff_of_nodup (buildState_units_nodup l₁)
      (buildState_units_nodup l₂)).mpr (fun a => by
        rw [buildState_units_mem, buildState_units_mem]
        exact (h.map _).mem_iff)
  have hnames : ∀ s, ((buildState l₁).names s).Perm ((buildState l₂).names s) :=
    fun s => (List.perm_ext_iff_of_nodup (buildState_names_nodup l₁ s)
      (buildState_names_nodup l₂ s)).mpr (fun a => by
        rw [buildState_names_mem, buildState_names_mem]
        exact (h.flatMap_right _).mem_iff)
  refine Prod.ext ?_ (Prod.ext ?_ (Prod.ext ?_ ?_))
  · exact sorted_eq_of_perm serialLE hkeys
  · funext s
    by_cases hs : s ∈ (buildState l₁).serialKeys
    · have hs2 : s ∈ (buildState l₂).serialKeys := hkeys.mem_iff.mp hs
      show (if _ then _ else _) = (if _ then _ else _)
      rw [if_pos hs, if_pos hs2, sorted_eq_of_perm strLe (hnames s)]
    · have hs2 : s ∉ (buildState l₂).serialKeys := fun hx => hs (hkeys.mem_iff.mpr hx)
      show (if _ then _ else _) = (if _ then _ else _)
      rw [if_neg hs, if_neg hs2]
  · exact sorted_eq_of_perm strLe hunits
  · funext k
    show (buildState l₁).pivot k = (buildState l₂).pivot k
    rw [buildState_pivot, buildState_pivot]
    exact (h.flatMap_right _).foldl_eq none

theorem C9_witness :
    ([("U1", [("1", "A", PyNum.int 2)]), ("U2", [("2", "B", PyNum.int 3)])].Perm
      [("U2", [("2", "B", PyNum.int 3)]), ("U1", [("1", "A", PyNum.int 2)])]) ∧
    build_pivot_table
        [("U1", [("1", "A", PyNum.int 2)]), ("U2", [("2", "B", PyNum.int 3)])] =
      build_pivot_table
        [("U2", [("2", "B", PyNum.int 3)]), ("U1", [("1", "A", PyNum.int 2)])] :=
  ⟨by decide, C9_order_independence _ _ (by decide)⟩

/-- C10: a unit appears among the pivot's unit columns only if one of its
sheets parsed at least one row — necessarily of positive quantity —
because `collect_all_data` drops every `(unit, items)` pair whose item
list is empty. -/
theorem C10_units_need_rows (files : List (List Grid)) (u : String)
    (h : u ∈ (build_pivot_table (collect_all_data files)).2.2.1) :
    ∃ wb ∈ files, ∃ g ∈ wb, ∃ items, read_sheet g = (some u, items) ∧
      items ≠ [] ∧ ∀ row ∈ items, 0 < row.2.2.val := by
  have h1 : u ∈ (buildState (collect_all_data files)).units :=
    (List.perm_insertionSort strLe _).mem_iff.mp h
  rw [buildState_units_mem] at h1
  simp only [unitsFor, List.mem_map] at h1
  obtain ⟨p, hp, hpu⟩ := h1
  simp only [collect_all_data, List.mem_flatMap] at hp
  obtain ⟨wb, hwb, hpin⟩ := hp
  rw [List.mem_filterMap] at hpin
  obtain ⟨q, hq, hmatch⟩ := hpin
  obtain ⟨qu, qitems⟩ := q
  cases qu with
  | none => simp at hmatch
  | some u0 =>
    change (if qitems.isEmpty then none else some (u0, qitems)) = some p at hmatch
    split at hmatch
    · cases hmatch
    · rename_i hne
      simp only [Option.some.injEq] at hmatch
      subst hmatch
      simp only at hpu
      subst hpu
      simp only [read_excel, List.mem_filter] at hq
      obtain ⟨hqmem, -⟩ := hq
      rw [List.mem_map] at hqmem
      obtain ⟨g, hg, hread⟩ := hqmem
      refine ⟨wb, hwb, g, hg, qitems, hread, ?_, ?_⟩
      · intro hnil
        rw [hnil] at hne
        simp at hne
      · intro row hrow
        have hmem : row ∈ (read_sheet g).2 := by rw [hread]; exact hrow
        obtain ⟨hr1, xh1, nc1, qc1, r1, hf1, hle1, hlt1, hrw, hname1, hpos⟩ :=
          mem_read_sheet hmem
        rw [hrw]
        exact hpos

theorem C10_witness :
    "单位A" ∈ (build_pivot_table (collect_all_data [[gEx]])).2.2.1 ∧
      ∃ wb ∈ [[gEx]], ∃ g ∈ wb, ∃ items, read_sheet g = (some "单位A", items) ∧
        items ≠ [] ∧ ∀ row ∈ items, 0 < row.2.2.val :=
  ⟨by decide, C10_units_need_rows [[gEx]] "单位A" (by decide)⟩

end VegOrder
